import Mathlib

/-!
Verification of the newt package/target core: a shallow embedding of
`newt/cli/target_cmds.go` and `newt/pkg/localpackage.go`.

Go strings are embedded as `List Char` (named `GoStr`); Go string
concatenation is list append, `strings.Split` on a one-character separator
is `List.splitOn`, `strings.HasSuffix` is `List.isSuffixOf`, and so on.
Go maps (`map[string]string` and the settings of one YAML document) are
embedded as association lists observed only through lookup, which matches
the Go semantics where iteration order is unspecified and all uses below
are order-insensitive.
-/

namespace Newt

/-- A Go string, embedded as its list of characters. -/
abbrev GoStr := List Char

/-- Build a `GoStr` from a Lean string literal. -/
def gs (s : String) : GoStr := s.data

/-- Association-list lookup keyed by `GoStr` (the view of a Go map). -/
def alookup {β : Type} : List (GoStr × β) → GoStr → Option β
  | [], _ => none
  | (k', v) :: rest, k => if k' = k then some v else alookup rest k

/-- The keys of an association list. -/
def akeys {β : Type} (m : List (GoStr × β)) : List GoStr := m.map Prod.fst

/-- A Go `map[string]string`. -/
abbrev GoMap := List (GoStr × GoStr)

/-- Go map deletion `delete(m, k)`: remove the binding of `k`. -/
def mapErase {β : Type} (m : List (GoStr × β)) (k : GoStr) : List (GoStr × β) :=
  m.filter (fun kv => kv.1 ≠ k)

/-- Go map assignment `m[k] = v`: bind `k` to `v`, overwriting any
previous binding.  (Position in the list is unobservable; only lookup is.) -/
def mapSet {β : Type} (m : List (GoStr × β)) (k : GoStr) (v : β) : List (GoStr × β) :=
  mapErase m k ++ [(k, v)]

/-- A value stored under one key of a YAML document: a scalar string, an
integer, a list of strings, or a string-to-string map. -/
inductive YVal where
  | str (s : GoStr)
  | int (i : Int)
  | list (l : List GoStr)
  | map (m : GoMap)
deriving DecidableEq

/-- Modelled from the spec: the in-memory "structured document" of one
configuration file (`ycfg.YCfg`), a flat key-to-value mapping. -/
abbrev YCfg := List (GoStr × YVal)

/-- Modelled from the spec: `delete(key)` of the structured-document service. -/
def ycfgDelete (y : YCfg) (k : GoStr) : YCfg := mapErase y k

/-- Modelled from the spec: `replace(key, value)` — whole-value overwrite. -/
def ycfgReplace (y : YCfg) (k : GoStr) (v : YVal) : YCfg := mapSet y k v

/-- Modelled from the spec: `Replace` with a nil value deletes the key
("empty value means delete"). -/
def ycfgReplaceOpt (y : YCfg) (k : GoStr) (v : Option YVal) : YCfg :=
  match v with
  | none => ycfgDelete y k
  | some v => ycfgReplace y k v

/-- Modelled from the spec: `clear()` — wipe all keys of the document. -/
def ycfgClear : YCfg := []

/-- Modelled from the spec: `get_string(key)`; a missing or non-scalar key
yields the Go zero value `""`. -/
def getValString (y : YCfg) (k : GoStr) : GoStr :=
  match alookup y k with
  | some (.str s) => s
  | _ => []

/-- Modelled from the spec: `get_int(key)`; missing yields `0`. -/
def getValInt (y : YCfg) (k : GoStr) : Int :=
  match alookup y k with
  | some (.int i) => i
  | _ => 0

/-- Modelled from the spec: `get_string_list(key)`; missing yields nil. -/
def getValStringSlice (y : YCfg) (k : GoStr) : List GoStr :=
  match alookup y k with
  | some (.list l) => l
  | _ => []

/-- Modelled from the spec: `get_string_map(key)`; a missing key yields a
nil map, which the callers distinguish from an empty one. -/
def getValStringMapString (y : YCfg) (k : GoStr) : Option GoMap :=
  match alookup y k with
  | some (.map m) => some m
  | _ => none

/-- The whitespace class of Go `unicode.IsSpace` restricted to Latin-1,
used by `strings.Fields` and `strings.TrimSpace`. -/
def isGoSpace (c : Char) : Bool :=
  c = ' ' ∨ c = '\t' ∨ c = '\n' ∨ c = Char.ofNat 11 ∨ c = Char.ofNat 12 ∨
    c = '\r' ∨ c = Char.ofNat 133 ∨ c = Char.ofNat 160

/-- Go `strings.Fields`: split around runs of whitespace, dropping empties. -/
def goFields (s : GoStr) : List GoStr :=
  (List.splitOnP isGoSpace s).filter (fun w => w ≠ [])

/-- Go `strings.TrimSpace`. -/
def goTrimSpace (s : GoStr) : GoStr :=
  ((s.dropWhile isGoSpace).reverse.dropWhile isGoSpace).reverse

/-- Modelled from the spec: `syscfg.KeyValueFromStr` decodes the wire
format `k1=v1:k2=v2:…` (empty allowed, spaces trimmed) into a map; each
piece binds what precedes its first `=` to what follows it. -/
def keyValueFromStr (s : GoStr) : GoMap :=
  let s := goTrimSpace s
  if s = [] then []
  else
    (s.splitOn ':').foldl
      (fun m piece =>
        let piece := goTrimSpace piece
        mapSet m (piece.takeWhile (fun c => c ≠ '='))
          ((piece.dropWhile (fun c => c ≠ '=')).drop 1))
      []

/-- Lexicographic (byte-wise) order on Go strings, as used by
`sort.Strings`. -/
def goStrLe : GoStr → GoStr → Bool
  | [], _ => true
  | _ :: _, [] => false
  | a :: as, b :: bs => if a < b then true else if b < a then false else goStrLe as bs

/-- Insert into a lexicographically sorted list. -/
def insertSorted (x : GoStr) : List GoStr → List GoStr
  | [] => [x]
  | y :: ys => if goStrLe x y then x :: y :: ys else y :: insertSorted x ys

/-- `sort.Strings`: sort a list of strings lexicographically.  (Embedded
as insertion sort; for a total order on strings the sorted output is the
same list Go's sort produces.) -/
def sortStrings (l : List GoStr) : List GoStr := l.foldr insertSorted []

/-- Join a list of strings with a separator (`strings.Join`). -/
def joinSep (sep : GoStr) : List GoStr → GoStr
  | [] => []
  | [x] => x
  | x :: y :: xs => x ++ sep ++ joinSep sep (y :: xs)

/-- Modelled from the spec: `syscfg.KeyValueToStr` encodes a map as
`k1=v1:k2=v2:…` with the keys sorted. -/
def keyValueToStr (m : GoMap) : GoStr :=
  joinSep [':']
    ((sortStrings (akeys m)).map (fun k => k ++ ['='] ++ ((alookup m k).getD [])))

/-- `util.StringMapStringToItfMapItf`: a `map[string]string` viewed as a
generic document value. -/
def stringMapStringToItfMapItf (m : GoMap) : YVal := .map m

/-- The `syscfg.vals` document key. -/
def syscfgValsKey : GoStr := gs "syscfg.vals"

/-- `amendSysCfg` of `target_cmds.go`: amend (or, with `amendDelete`,
delete from) the `syscfg.vals` map of the target's syscfg document. -/
def amendSysCfg (amendDelete : Bool) (value : GoStr) (syscfgY : YCfg) : YCfg :=
  let sysVals := getValStringMapString syscfgY syscfgValsKey
  let amendSysVals := keyValueFromStr value
  let newVals : GoMap :=
    match sysVals with
    | some m =>
        amendSysVals.foldl
          (fun acc kv => if amendDelete then mapErase acc kv.1 else mapSet acc kv.1 kv.2) m
    | none => if amendDelete then [] else amendSysVals
  ycfgReplace syscfgY syscfgValsKey (stringMapStringToItfMapItf newVals)

/-- `amendBuildFlags` of `target_cmds.go`: amend (or, with `amendDelete`,
remove from) the token list under `pkg.<flagVar>` of the target's primary
manifest. -/
def amendBuildFlags (amendDelete : Bool) (flagVar value : GoStr) (pkgY : YCfg) : YCfg :=
  let pkgVar := gs "pkg." ++ flagVar
  let curFlags := getValStringSlice pkgY pkgVar
  let amendFlags := goFields value
  let newFlags : List GoStr :=
    if !amendDelete then
      amendFlags.foldl
        (fun acc amendVal => if curFlags.contains amendVal then acc else acc ++ [amendVal])
        curFlags
    else
      curFlags.foldl
        (fun acc curVal => if amendFlags.contains curVal then acc else acc ++ [curVal])
        []
  ycfgReplace pkgY pkgVar (.list newFlags)

/-- Go `strings.TrimPrefix`: drop `pre` from the front of `s` when present. -/
def trimPre (pre s : GoStr) : GoStr :=
  if pre.isPrefixOf s then s.drop pre.length else s

/-- `amendVars` of `target_cmds.go`: the variables the amend command accepts. -/
def amendVars : List GoStr :=
  [gs "aflags", gs "cflags", gs "cxxflags", gs "lflags", gs "syscfg"]

/-- `setVars` of `target_cmds.go`: the variables the set command accepts. -/
def setVars : List GoStr :=
  [gs "aflags", gs "app", gs "build_profile", gs "bsp", gs "cflags",
   gs "cxxflags", gs "lflags", gs "loader", gs "syscfg"]

/-- `targetAmendCmd` validation: the supplied variable name is compared
verbatim against `amendVars`. -/
def amendVarValid (kv0 : GoStr) : Bool := amendVars.contains kv0

/-- `targetSetCmd` validation: the optional `target.` prefix is stripped
before comparison against `setVars`. -/
def setVarSupported (kv0 : GoStr) : Bool :=
  setVars.contains (trimPre (gs "target.") kv0)

/-- The three documents of a target that `targetSetCmd` can write:
the target's own `target.*` settings, the primary manifest, and the
syscfg manifest. -/
structure TargetDocs where
  targetY : YCfg
  pkgY : YCfg
  syscfgY : YCfg
deriving DecidableEq

/-- One iteration of the mutation loop of `targetSetCmd` (lines 358-391):
`kv0` is the already-`target.`-prefixed variable name, `kv1` the value
(already trailing-slash trimmed). -/
def targetSetVar (st : TargetDocs) (kv0 kv1 : GoStr) : TargetDocs :=
  if kv0 = gs "target.syscfg" then
    { st with
      syscfgY :=
        ycfgReplace ycfgClear syscfgValsKey
          (stringMapStringToItfMapItf (keyValueFromStr kv1)) }
  else if kv0 = gs "target.cflags" ∨ kv0 = gs "target.cxxflags" ∨
      kv0 = gs "target.lflags" ∨ kv0 = gs "target.aflags" then
    let key := gs "pkg." ++ trimPre (gs "target.") kv0
    if kv1 = [] then
      { st with pkgY := ycfgReplaceOpt st.pkgY key none }
    else
      { st with pkgY := ycfgReplace st.pkgY key (.list (goFields kv1)) }
  else
    if kv1 = [] then
      { st with targetY := ycfgDelete st.targetY kv0 }
    else
      { st with targetY := ycfgReplace st.targetY kv0 (.str kv1) }

/-- `pkgVarSliceString` of `target_cmds.go`: read the list under `key`,
sort it, and write each value followed by a space into a buffer. -/
def pkgVarSliceString (pkgY : YCfg) (key : GoStr) : GoStr :=
  let vals := getValStringSlice pkgY key
  (sortStrings vals).foldl (fun buffer v => buffer ++ v ++ [' ']) []

/-- The `kvPairs` map that `targetShowCmd` builds for one target:
the target's flat settings with the `target.` prefix trimmed, then the
`syscfg`, `cflags`, `cxxflags`, `lflags` and `aflags` renderings. -/
def showKvPairs (targetSettings : GoMap) (syscfgY pkgY : YCfg) : GoMap :=
  let base := targetSettings.foldl
    (fun acc kv => mapSet acc (trimPre (gs "target.") kv.1) kv.2) []
  let p1 := mapSet base (gs "syscfg")
    (keyValueToStr ((getValStringMapString syscfgY syscfgValsKey).getD []))
  let p2 := mapSet p1 (gs "cflags") (pkgVarSliceString pkgY (gs "pkg.cflags"))
  let p3 := mapSet p2 (gs "cxxflags") (pkgVarSliceString pkgY (gs "pkg.cxxflags"))
  let p4 := mapSet p3 (gs "lflags") (pkgVarSliceString pkgY (gs "pkg.lflags"))
  mapSet p4 (gs "aflags") (pkgVarSliceString pkgY (gs "pkg.aflags"))

/-- The display loop of `targetShowCmd`: keys sorted, and a `k=v` line
printed only when the value is non-empty. -/
def showDisplayedPairs (targetSettings : GoMap) (syscfgY pkgY : YCfg) : GoMap :=
  let kvPairs := showKvPairs targetSettings syscfgY pkgY
  (sortStrings (akeys kvPairs)).filterMap
    (fun k =>
      match alookup kvPairs k with
      | some v => if v.length > 0 then some (k, v) else none
      | none => none)

/-- Modelled from the spec: the package types, ordered so that `lib` and
`app` lie strictly below the BSP boundary (`PACKAGE_TYPE_*` constants of
the `pkg` package, which are not part of the given sources). -/
inductive PackageType where
  | compiler
  | sdk
  | generated
  | lib
  | transient
  | app
  | unittest
  | bsp
  | target
deriving DecidableEq

/-- The numeric code behind a `PACKAGE_TYPE_*` constant. -/
def typeCode : PackageType → Nat
  | .compiler => 0
  | .sdk => 1
  | .generated => 2
  | .lib => 3
  | .transient => 4
  | .app => 5
  | .unittest => 6
  | .bsp => 7
  | .target => 8

/-- Modelled from the spec: the name of each package type
(`PackageTypeNames`, not part of the given sources). -/
def packageTypeName : PackageType → GoStr
  | .compiler => gs "compiler"
  | .sdk => gs "sdk"
  | .generated => gs "generated"
  | .lib => gs "lib"
  | .transient => gs "transient"
  | .app => gs "app"
  | .unittest => gs "unittest"
  | .bsp => gs "bsp"
  | .target => gs "target"

/-- The list behind `PackageTypeNames`, searched by `Load`. -/
def packageTypeNames : List (PackageType × GoStr) :=
  [.compiler, .sdk, .generated, .lib, .transient, .app, .unittest, .bsp,
   .target].map (fun t => (t, packageTypeName t))

/-- The search of `PackageTypeNames` in `Load`: the type whose name
matches `s`, if any. -/
def findPackageType (s : GoStr) : Option PackageType :=
  (packageTypeNames.find? (fun tn => tn.2 = s)).map Prod.fst

/-- `PackageDesc`: the description fields of a package. -/
structure PackageDesc where
  author : GoStr := []
  homepage : GoStr := []
  description : GoStr := []
  keywords : List GoStr := []
deriving DecidableEq

/-- `readDesc` of `localpackage.go`: best-effort reads of the description
fields. -/
def readDesc (yc : YCfg) : PackageDesc :=
  { author := getValString yc (gs "pkg.author"),
    homepage := getValString yc (gs "pkg.homepage"),
    description := getValString yc (gs "pkg.description"),
    keywords := getValStringSlice yc (gs "pkg.keywords") }

/-- `matchNamePath` of `localpackage.go`: split the name on `/`, join the
segments back with `/`, and test whether the path has the result as a
string suffix. -/
def matchNamePath (name path : GoStr) : Bool :=
  let names := name.splitOn '/'
  let name := List.intercalate ['/'] names
  name.isSuffixOf path

/-- The name-path coherence check in the words of the spec: the declared
name is split on `/` and the normalized base path must end with that
suffix of slash-delimited segments (segment-aligned).  Stated for
comparison with the source's `matchNamePath`. -/
def matchNamePathSpec (name path : GoStr) : Bool :=
  (name.splitOn '/').isSuffixOf (path.splitOn '/')

/-- The failure kinds of `Load`, following the spec's error taxonomy:
the first two are `InvalidIdentity`, the rest `InvalidManifest`. -/
inductive LoadErr where
  | missingName
  | invalidName
  | invalidType
  | missingLink
  | subPrioRange
  | subPrioType
deriving DecidableEq

/-- Which `LoadErr`s are of the spec's `InvalidManifest` kind. -/
def LoadErr.isInvalidManifest : LoadErr → Bool
  | .invalidType | .subPrioRange | .subPrioType => true
  | _ => false

/-- `LocalPackage`: the fields of a loaded package that the claims
observe. -/
structure LocalPackage where
  name : GoStr
  basePath : GoStr
  packageType : PackageType
  subPriority : Int
  linkedName : GoStr := []
  desc : PackageDesc := {}
  pkgY : YCfg := []
  syscfgY : YCfg := []
deriving DecidableEq

/-- `LocalPackage.Load` of `localpackage.go`.  `subprioNum` stands for the
constant `PACKAGE_SUBPRIO_NUM` (not part of the given sources; the spec
fixes it only as the exclusive upper bound of `sub_priority`); `syscfgIn`
is the syscfg document when the file exists (a missing file is not an
error). -/
def load (subprioNum : Int) (basePath : GoStr) (pkgYIn : YCfg)
    (syscfgIn : Option YCfg) : Except LoadErr LocalPackage :=
  let name := getValString pkgYIn (gs "pkg.name")
  if name = [] then .error .missingName
  else if !matchNamePath name basePath then .error .invalidName
  else
    let typeString := getValString pkgYIn (gs "pkg.type")
    match (if typeString = [] then some .lib else findPackageType typeString) with
    | none => .error .invalidType
    | some packageType =>
      if packageType = .transient then
        let n := getValString pkgYIn (gs "pkg.link")
        if n = [] then .error .missingLink
        else
          .ok { name, basePath, packageType, subPriority := 0, linkedName := n,
                pkgY := pkgYIn }
      else
        let subPriority := getValInt pkgYIn (gs "pkg.subpriority")
        if subPriority ≥ subprioNum then .error .subPrioRange
        else if subPriority > 0 ∧ typeCode packageType ≥ typeCode .bsp then
          .error .subPrioType
        else
          .ok { name, basePath, packageType, subPriority,
                desc := readDesc pkgYIn, pkgY := pkgYIn,
                syscfgY := syscfgIn.getD [] }

/-- One line of the `pkg.yml` file that `Save` writes. -/
inductive SaveLine where
  | scalar (key val : GoStr)
  | blank
  | seqHeader (key : GoStr)
  | seqItem (val : GoStr)
deriving DecidableEq

/-- The text of one written line (`Save` terminates each with `"\n"`). -/
def renderSaveLine : SaveLine → GoStr
  | .scalar k v => k ++ gs ": " ++ v
  | .blank => []
  | .seqHeader k => k ++ [':']
  | .seqItem v => gs "    - " ++ v

/-- `sequenceString` of `localpackage.go`, line-structured: nothing when
the list under `key` is empty (the buffer test `buffer.Len() == 0`),
otherwise the `key:` header followed by one escaped `    - ` item per
value.  `esc` is the document layer's `yaml.EscapeString`. -/
def sequenceString (esc : GoStr → GoStr) (pkgY : YCfg) (key : GoStr) :
    List SaveLine :=
  let vals := getValStringSlice pkgY key
  if vals = [] then [] else .seqHeader key :: vals.map (fun f => .seqItem (esc f))

/-- `LocalPackage.Save` of `localpackage.go`, line-structured: the five
escaped scalars in fixed order, a blank line, then the five sequence
blocks in fixed order. -/
def save (esc : GoStr → GoStr) (p : LocalPackage) : List SaveLine :=
  [.scalar (gs "pkg.name") (esc p.name),
   .scalar (gs "pkg.type") (esc (packageTypeName p.packageType)),
   .scalar (gs "pkg.description") (esc p.desc.description),
   .scalar (gs "pkg.author") (esc p.desc.author),
   .scalar (gs "pkg.homepage") (esc p.desc.homepage),
   .blank]
  ++ sequenceString esc p.pkgY (gs "pkg.deps")
  ++ sequenceString esc p.pkgY (gs "pkg.aflags")
  ++ sequenceString esc p.pkgY (gs "pkg.cflags")
  ++ sequenceString esc p.pkgY (gs "pkg.cxxflags")
  ++ sequenceString esc p.pkgY (gs "pkg.lflags")

/-- The full text of the saved `pkg.yml`. -/
def saveFileContent (esc : GoStr → GoStr) (p : LocalPackage) : GoStr :=
  ((save esc p).map (fun l => renderSaveLine l ++ ['\n'])).foldl (· ++ ·) []

/-- The manifest keys a list of saved lines mentions. -/
def savedKeys (lines : List SaveLine) : List GoStr :=
  lines.filterMap
    (fun l =>
      match l with
      | .scalar k _ => some k
      | .seqHeader k => some k
      | _ => none)

/-- The whitelist of §4.2: the only keys `Save` ever writes. -/
def saveWhitelist : List GoStr :=
  [gs "pkg.name", gs "pkg.type", gs "pkg.description", gs "pkg.author",
   gs "pkg.homepage", gs "pkg.deps", gs "pkg.aflags", gs "pkg.cflags",
   gs "pkg.cxxflags", gs "pkg.lflags"]

/-- What the recursive scan observes of one loaded package: its declared
name and its base path. -/
structure PkgInfo where
  name : GoStr
  path : GoStr
deriving DecidableEq

mutual

/-- One directory of the repository as the scan sees it: the outcome of
`LoadLocalPackage` on it (`none` when it has no `pkg.yml`, `Except.error`
when loading fails with that warning text) and its filtered listing. -/
inductive DirTree where
  | mk (pkgFile : Option (Except GoStr PkgInfo)) (children : DirForest)

/-- The listing of a directory: named subdirectories in order. -/
inductive DirForest where
  | nil
  | cons (dirName : GoStr) (tree : DirTree) (rest : DirForest)

end

/-- The state threaded through `ReadLocalPackageRecursive`: the package
store keyed by declared name, and the warnings gathered so far. -/
structure ScanState where
  pkgList : List (GoStr × PkgInfo)
  warnings : List GoStr

/-- The "multiple packages with same pkg.name" warning, naming both
paths. -/
def dupWarning (repoName : GoStr) (oldPkg newPkg : PkgInfo) : GoStr :=
  gs "Multiple packages with same pkg.name=" ++ oldPkg.name ++
    gs " in repo " ++ repoName ++ gs "; path1=" ++ oldPkg.path ++
    gs " path2=" ++ newPkg.path

/-- The store update of `ReadLocalPackageRecursive` after a successful
load: an existing package of the same name wins and the duplicate only
adds a warning. -/
def insertScannedPackage (repoName : GoStr) (st : ScanState) (p : PkgInfo) :
    ScanState :=
  match alookup st.pkgList p.name with
  | some oldPkg =>
      { st with warnings := st.warnings ++ [dupWarning repoName oldPkg p] }
  | none => { st with pkgList := st.pkgList ++ [(p.name, p)] }

/-- `LocalPackageSpecialName`: the reserved directory names. -/
def localPackageSpecialName (n : GoStr) : Bool :=
  n = gs "src" ∨ n = gs "include" ∨ n = gs "bin"

mutual

/-- `ReadLocalPackageRecursive` of `localpackage.go`: children first
(post-order), then the directory's own package; a failed load and a
duplicate name are warnings, never errors. -/
def readLocalPackageRecursive (repoName : GoStr) (t : DirTree)
    (st : ScanState) : ScanState × Option GoStr :=
  match t with
  | .mk pkgFile children =>
    match readForest repoName children st with
    | (st', some e) => (st', some e)
    | (st', none) =>
      match pkgFile with
      | none => (st', none)
      | some (.error e) => ({ st' with warnings := st'.warnings ++ [e] }, none)
      | some (.ok p) => (insertScannedPackage repoName st' p, none)

/-- The loop over a directory listing inside `ReadLocalPackageRecursive`:
reserved and dot-prefixed names are skipped, a child's error would
propagate. -/
def readForest (repoName : GoStr) (f : DirForest) (st : ScanState) :
    ScanState × Option GoStr :=
  match f with
  | .nil => (st, none)
  | .cons dirName tree rest =>
    if localPackageSpecialName dirName ∨ (gs ".").isPrefixOf dirName then
      readForest repoName rest st
    else
      match readLocalPackageRecursive repoName tree st with
      | (st', some e) => (st', some e)
      | (st', none) => readForest repoName rest st'

end

/-- `ReadLocalPackages`: run the recursive scan from an empty store. -/
def readLocalPackages (repoName : GoStr) (root : DirTree) :
    ScanState × Option GoStr :=
  readLocalPackageRecursive repoName root { pkgList := [], warnings := [] }

/-- `strings.Contains`: whether `needle` occurs contiguously in `hay`. -/
def containsSub (needle hay : GoStr) : Bool :=
  hay.tails.any (fun t => needle.isPrefixOf t)

theorem alookup_append {β : Type} (a b : List (GoStr × β)) (k : GoStr) :
    alookup (a ++ b) k = (alookup a k).or (alookup b k) := by
  induction a with
  | nil => simp [alookup]
  | cons kv rest ih =>
    obtain ⟨k', v⟩ := kv
    by_cases h : k' = k <;> simp [alookup, h, ih]

theorem akeys_cons {β : Type} (k : GoStr) (v : β) (m : List (GoStr × β)) :
    akeys ((k, v) :: m) = k :: akeys m := rfl

theorem mapErase_cons {β : Type} (k' : GoStr) (v : β) (m : List (GoStr × β))
    (k : GoStr) :
    mapErase ((k', v) :: m) k =
      if k' = k then mapErase m k else (k', v) :: mapErase m k := by
  by_cases h : k' = k <;> simp [mapErase, List.filter_cons, h]

theorem alookup_mapErase {β : Type} (m : List (GoStr × β)) (k k' : GoStr) :
    alookup (mapErase m k) k' = if k = k' then none else alookup m k' := by
  induction m with
  | nil => simp [alookup, mapErase]
  | cons kv rest ih =>
    obtain ⟨k'', v⟩ := kv
    rw [mapErase_cons]
    by_cases h1 : k'' = k
    · subst h1
      rw [if_pos rfl, ih]
      by_cases h2 : k'' = k' <;> simp [alookup, h2]
    · rw [if_neg h1]
      by_cases h2 : k'' = k'
      · subst h2
        have hkk : ¬k = k'' := fun hh => h1 hh.symm
        simp [alookup, hkk]
      · simp [alookup, h2, ih]

theorem alookup_mapSet {β : Type} (m : List (GoStr × β)) (k k' : GoStr) (v : β) :
    alookup (mapSet m k v) k' = if k = k' then some v else alookup m k' := by
  unfold mapSet
  rw [alookup_append, alookup_mapErase]
  by_cases h : k = k' <;> simp [alookup, h]

theorem alookup_eq_none_iff {β : Type} (m : List (GoStr × β)) (k : GoStr) :
    alookup m k = none ↔ k ∉ akeys m := by
  induction m with
  | nil => simp [alookup, akeys]
  | cons kv rest ih =>
    obtain ⟨k', v⟩ := kv
    rw [akeys_cons]
    by_cases h : k' = k
    · subst h
      simp [alookup]
    · have hkk : k ≠ k' := fun hh => h hh.symm
      simp [alookup, h, hkk, ih]

theorem akeys_mapErase {β : Type} (m : List (GoStr × β)) (k : GoStr) :
    akeys (mapErase m k) = (akeys m).filter (fun k' => k' ≠ k) := by
  unfold akeys mapErase
  rw [List.filter_map]
  rfl

theorem akeys_mapSet_nodup {β : Type} (m : List (GoStr × β)) (k : GoStr) (v : β)
    (h : (akeys m).Nodup) : (akeys (mapSet m k v)).Nodup := by
  unfold mapSet
  have : akeys (mapErase m k ++ [(k, v)]) = akeys (mapErase m k) ++ [k] := by
    simp [akeys]
  rw [this, List.nodup_append, akeys_mapErase]
  refine ⟨h.filter _, List.nodup_singleton _, ?_⟩
  intro x hx
  simp only [List.mem_filter, decide_not, Bool.not_eq_true', decide_eq_false_iff_not] at hx
  simp [hx.2]

theorem foldl_mapSet_nodup (l : List (GoStr × GoStr)) :
    ∀ m : GoMap, (akeys m).Nodup →
      (akeys (l.foldl (fun acc kv => mapSet acc kv.1 kv.2) m)).Nodup := by
  induction l with
  | nil => intro m h; simpa using h
  | cons kv rest ih =>
    intro m h
    exact ih (mapSet m kv.1 kv.2) (akeys_mapSet_nodup m kv.1 kv.2 h)

theorem keyValueFromStr_nodup (s : GoStr) :
    (akeys (keyValueFromStr s)).Nodup := by
  unfold keyValueFromStr
  by_cases h : goTrimSpace s = []
  · simp [h, akeys]
  · simp only [h, if_neg, if_false]
    have gen : ∀ (pieces : List GoStr) (m : GoMap), (akeys m).Nodup →
        (akeys (pieces.foldl
          (fun m piece =>
            let piece := goTrimSpace piece
            mapSet m (piece.takeWhile (fun c => c ≠ '='))
              ((piece.dropWhile (fun c => c ≠ '=')).drop 1)) m)).Nodup := by
      intro pieces
      induction pieces with
      | nil => intro m hm; simpa using hm
      | cons p rest ih =>
        intro m hm
        exact ih _ (akeys_mapSet_nodup _ _ _ hm)
    exact gen _ [] (by simp [akeys])

theorem foldl_skip_append {α : Type} (p : α → Bool) (T : List α) :
    ∀ X : List α,
      T.foldl (fun acc a => if p a then acc else acc ++ [a]) X
        = X ++ T.filter (fun a => !p a) := by
  induction T with
  | nil => intro X; simp
  | cons t rest ih =>
    intro X
    by_cases h : p t <;> simp [List.foldl_cons, h, ih, List.filter_cons]

theorem foldl_mapSet_lookup (N : List (GoStr × GoStr)) :
    ∀ (M : GoMap) (k : GoStr), (akeys N).Nodup →
      alookup (N.foldl (fun acc kv => mapSet acc kv.1 kv.2) M) k
        = (alookup N k).or (alookup M k) := by
  induction N with
  | nil => intro M k _; simp [alookup]
  | cons kv rest ih =>
    intro M k hnd
    obtain ⟨k0, v0⟩ := kv
    simp only [akeys, List.map_cons, List.nodup_cons] at hnd
    rw [List.foldl_cons, ih (mapSet M k0 v0) k hnd.2, alookup_mapSet]
    by_cases h : k0 = k
    · subst h
      have : alookup rest k0 = none := by
        rw [alookup_eq_none_iff]
        exact hnd.1
      simp [alookup, this]
    · simp [alookup, h, Ne.symm h]

theorem foldl_mapErase_lookup (N : List (GoStr × GoStr)) :
    ∀ (M : GoMap) (k : GoStr),
      alookup (N.foldl (fun acc kv => mapErase acc kv.1) M) k
        = if (akeys N).contains k then none else alookup M k := by
  induction N with
  | nil => intro M k; simp [akeys]
  | cons kv rest ih =>
    intro M k
    obtain ⟨k0, v0⟩ := kv
    rw [List.foldl_cons, ih (mapErase M k0) k, alookup_mapErase, akeys_cons]
    by_cases h : k0 = k
    · subst h
      by_cases hrest : (akeys rest).contains k0 <;>
        simp [hrest, List.contains_cons]
    · have hne : ¬k = k0 := fun hh => h hh.symm
      by_cases hrest : k ∈ akeys rest <;>
        simp [hrest, List.contains_cons, hne, h, List.elem_iff, List.contains]

theorem getValStringSlice_ycfgReplace_list (y : YCfg) (k : GoStr) (l : List GoStr) :
    getValStringSlice (ycfgReplace y k (.list l)) k = l := by
  simp [getValStringSlice, ycfgReplace, alookup_mapSet]

theorem getValStringMapString_ycfgReplace_map (y : YCfg) (k : GoStr) (m : GoMap) :
    getValStringMapString (ycfgReplace y k (.map m)) k = some m := by
  simp [getValStringMapString, ycfgReplace, alookup_mapSet]

/-- Claim C2: for the current flag list L under `pkg.<name>` and an amend
value tokenizing to T, amend without delete produces L followed by the
tokens of T not already in L, in their given order; amend with delete
produces L with every occurrence of any token of T removed (absent tokens
silently ignored). -/
theorem amendBuildFlags_set_union (pkgY : YCfg) (flagVar value : GoStr) :
    getValStringSlice (amendBuildFlags false flagVar value pkgY)
        (gs "pkg." ++ flagVar)
      = getValStringSlice pkgY (gs "pkg." ++ flagVar)
        ++ (goFields value).filter
            (fun t => !(getValStringSlice pkgY (gs "pkg." ++ flagVar)).contains t)
    ∧ getValStringSlice (amendBuildFlags true flagVar value pkgY)
        (gs "pkg." ++ flagVar)
      = (getValStringSlice pkgY (gs "pkg." ++ flagVar)).filter
            (fun t => !(goFields value).contains t) := by
  constructor
  · unfold amendBuildFlags
    rw [getValStringSlice_ycfgReplace_list]
    simp only [Bool.not_false, if_pos]
    exact foldl_skip_append _ _ _
  · unfold amendBuildFlags
    rw [getValStringSlice_ycfgReplace_list]
    simp only [Bool.not_true, Bool.false_eq_true, if_false]
    rw [foldl_skip_append]
    simp

/-- Claim C3: setting the `syscfg` variable first clears the whole syscfg
document and then stores the parsed map under `syscfg.vals`, so afterwards
the document holds exactly that one key with exactly the parsed map. -/
theorem targetSetVar_syscfg_destructive (st : TargetDocs) (value : GoStr) :
    (targetSetVar st (gs "target.syscfg") value).syscfgY
      = [(syscfgValsKey, .map (keyValueFromStr value))]
    ∧ getValStringMapString ((targetSetVar st (gs "target.syscfg") value).syscfgY)
        syscfgValsKey = some (keyValueFromStr value) := by
  constructor
  · simp [targetSetVar, ycfgReplace, ycfgClear, mapSet, mapErase,
      stringMapStringToItfMapItf]
  · simp [targetSetVar, ycfgClear, stringMapStringToItfMapItf,
      getValStringMapString_ycfgReplace_map]

/-- Claim C10: the amend command compares the variable name verbatim
against the amendable set, so `target.<v>` is rejected by amend for every
amendable `v`, while the set command strips the `target.` prefix and
accepts the same form. -/
theorem amendVars_reject_target_prefixed (v : GoStr) (h : v ∈ amendVars) :
    amendVarValid (gs "target." ++ v) = false
    ∧ setVarSupported (gs "target." ++ v) = true := by
  simp only [amendVars, List.mem_cons, List.not_mem_nil, or_false] at h
  rcases h with rfl | rfl | rfl | rfl | rfl <;> exact ⟨by decide, by decide⟩

theorem amendVars_reject_target_prefixed_witness :
    amendVarValid (gs "target." ++ gs "cflags") = false
    ∧ setVarSupported (gs "target." ++ gs "cflags") = true :=
  amendVars_reject_target_prefixed (gs "cflags") (by decide)

/-- Claim C8: `Load` checks `pkg.subpriority` only against the exclusive
upper bound and the BSP-boundary condition; a negative value slips
through, contradicting the code's own "out of range (0 - N-1)" error
message: the manifest `pkg.name: mylib`, `pkg.subpriority: -1` loads
successfully with a negative `sub_priority`. -/
theorem load_accepts_negative_subpriority :
    ((load 8 (gs "proj/mylib")
        [(gs "pkg.name", .str (gs "mylib")), (gs "pkg.subpriority", .int (-1))]
        none).toOption.map (fun p => p.subPriority)) = some (-1)
    ∧ ((-1 : Int) < 0) := by
  exact ⟨rfl, by decide⟩

/-- Claim C6 (counterexample): `matchNamePath` is not segment-based: with
declared name `oo/bar` and base path `x/foo/bar` the segment-suffix check
of the spec fails, yet `Load` succeeds because the code only checks a raw
string suffix. -/
theorem load_accepts_segment_misaligned_name :
    ((load 8 (gs "x/foo/bar") [(gs "pkg.name", .str (gs "oo/bar"))]
        none).toOption.map (fun p => (p.name, p.basePath)))
      = some (gs "oo/bar", gs "x/foo/bar")
    ∧ matchNamePathSpec (gs "oo/bar") (gs "x/foo/bar") = false := by
  exact ⟨rfl, by decide⟩

/-- Claim C6 (amended): the name-path check of `Load` is a raw string
suffix test — splitting the name on `/` and rejoining is the identity —
so a successful load guarantees only that the base path ends with the
declared name as a contiguous string, and any name whose characters do
not form a suffix of the base path is a fatal load error. -/
theorem matchNamePath_raw_suffix (subprioNum : Int) (basePath : GoStr)
    (pkgYIn : YCfg) (syscfgIn : Option YCfg) (p : LocalPackage)
    (name path : GoStr)
    (h : load subprioNum basePath pkgYIn syscfgIn = .ok p) :
    matchNamePath name path = name.isSuffixOf path
    ∧ p.basePath = basePath
    ∧ p.name.isSuffixOf basePath = true := by
  have hm : ∀ n pth : GoStr, matchNamePath n pth = n.isSuffixOf pth := by
    intro n pth
    unfold matchNamePath
    dsimp only
    rw [List.intercalate_splitOn]
  refine ⟨hm name path, ?_⟩
  unfold load at h
  dsimp only at h
  rw [hm] at h
  split at h
  · cases h
  · split at h
    · cases h
    · split at h
      · cases h
      · split at h
        · split at h
          · cases h
          · cases h
            exact ⟨rfl, by simp_all⟩
        · split at h
          · cases h
          · split at h
            · cases h
            · cases h
              exact ⟨rfl, by simp_all⟩

theorem matchNamePath_raw_suffix_witness :
    matchNamePath (gs "foo") (gs "proj/foo") = (gs "foo").isSuffixOf (gs "proj/foo")
    ∧ (LocalPackage.mk (gs "foo") (gs "proj/foo") .lib 0 [] {}
        [(gs "pkg.name", YVal.str (gs "foo"))] []).basePath = gs "proj/foo"
    ∧ (LocalPackage.mk (gs "foo") (gs "proj/foo") .lib 0 [] {}
        [(gs "pkg.name", YVal.str (gs "foo"))] []).name.isSuffixOf
        (gs "proj/foo") = true :=
  matchNamePath_raw_suffix 8 (gs "proj/foo") [(gs "pkg.name", YVal.str (gs "foo"))]
    none
    (LocalPackage.mk (gs "foo") (gs "proj/foo") .lib 0 [] {}
      [(gs "pkg.name", YVal.str (gs "foo"))] [])
    (gs "foo") (gs "proj/foo") rfl

/-- Claim C1: when the syscfg document holds map M under `syscfg.vals` and
the amend value parses to map N, amend without delete stores the union of
M and N with N winning on common keys; amend with delete stores M
restricted to the keys not in N, ignoring N's values. -/
theorem amendSysCfg_union_delete (syscfgY : YCfg) (value : GoStr) (M : GoMap)
    (k : GoStr) (hM : getValStringMapString syscfgY syscfgValsKey = some M) :
    (getValStringMapString (amendSysCfg false value syscfgY)
        syscfgValsKey).isSome = true
    ∧ alookup ((getValStringMapString (amendSysCfg false value syscfgY)
          syscfgValsKey).getD []) k
        = (alookup (keyValueFromStr value) k).or (alookup M k)
    ∧ (getValStringMapString (amendSysCfg true value syscfgY)
        syscfgValsKey).isSome = true
    ∧ alookup ((getValStringMapString (amendSysCfg true value syscfgY)
          syscfgValsKey).getD []) k
        = (if (akeys (keyValueFromStr value)).contains k then none
           else alookup M k) := by
  have hf : getValStringMapString (amendSysCfg false value syscfgY) syscfgValsKey
      = some ((keyValueFromStr value).foldl
          (fun acc kv => mapSet acc kv.1 kv.2) M) := by
    simp only [amendSysCfg, hM, stringMapStringToItfMapItf, Bool.false_eq_true,
      if_false]
    rw [getValStringMapString_ycfgReplace_map]
  have ht : getValStringMapString (amendSysCfg true value syscfgY) syscfgValsKey
      = some ((keyValueFromStr value).foldl
          (fun acc kv => mapErase acc kv.1) M) := by
    simp only [amendSysCfg, hM, stringMapStringToItfMapItf, if_true]
    rw [getValStringMapString_ycfgReplace_map]
  refine ⟨by rw [hf]; rfl, ?_, by rw [ht]; rfl, ?_⟩
  · rw [hf]
    simp only [Option.getD_some]
    exact foldl_mapSet_lookup (keyValueFromStr value) M k (keyValueFromStr_nodup value)
  · rw [ht]
    simp only [Option.getD_some]
    exact foldl_mapErase_lookup (keyValueFromStr value) M k

theorem amendSysCfg_union_delete_witness :
    (getValStringMapString (amendSysCfg false (gs "B=2")
        [(syscfgValsKey, YVal.map [(gs "A", gs "1")])]) syscfgValsKey).isSome = true
    ∧ alookup ((getValStringMapString (amendSysCfg false (gs "B=2")
          [(syscfgValsKey, YVal.map [(gs "A", gs "1")])]) syscfgValsKey).getD [])
        (gs "B")
        = (alookup (keyValueFromStr (gs "B=2")) (gs "B")).or
            (alookup [(gs "A", gs "1")] (gs "B"))
    ∧ (getValStringMapString (amendSysCfg true (gs "B=2")
        [(syscfgValsKey, YVal.map [(gs "A", gs "1")])]) syscfgValsKey).isSome = true
    ∧ alookup ((getValStringMapString (amendSysCfg true (gs "B=2")
          [(syscfgValsKey, YVal.map [(gs "A", gs "1")])]) syscfgValsKey).getD [])
        (gs "B")
        = (if (akeys (keyValueFromStr (gs "B=2"))).contains (gs "B") then none
           else alookup [(gs "A", gs "1")] (gs "B")) :=
  amendSysCfg_union_delete [(syscfgValsKey, YVal.map [(gs "A", gs "1")])]
    (gs "B=2") [(gs "A", gs "1")] (gs "B") rfl

/-- Claim C4: setting a flag variable splits the value on whitespace; an
empty value string deletes `pkg.<name>` from the primary manifest,
otherwise the key is replaced with the token list. -/
theorem targetSetVar_flags (st : TargetDocs) (n value : GoStr)
    (hn : n ∈ [gs "cflags", gs "cxxflags", gs "lflags", gs "aflags"]) :
    alookup ((targetSetVar st (gs "target." ++ n) value).pkgY) (gs "pkg." ++ n)
      = if value = [] then none else some (.list (goFields value)) := by
  simp only [List.mem_cons, List.not_mem_nil, or_false] at hn
  rcases hn with rfl | rfl | rfl | rfl <;>
  · unfold targetSetVar
    rw [if_neg (by decide), if_pos (by decide)]
    dsimp only
    by_cases hv : value = []
    · rw [if_pos hv, if_pos hv]
      dsimp only [ycfgReplaceOpt, ycfgDelete]
      rw [alookup_mapErase, if_pos (by decide)]
    · rw [if_neg hv, if_neg hv]
      dsimp only [ycfgReplace]
      rw [alookup_mapSet, if_pos (by decide)]

theorem targetSetVar_flags_witness :
    alookup ((targetSetVar (TargetDocs.mk [] [] [])
        (gs "target." ++ gs "cflags") (gs "-O2 -DX")).pkgY)
      (gs "pkg." ++ gs "cflags")
      = if (gs "-O2 -DX") = [] then none
        else some (.list (goFields (gs "-O2 -DX"))) :=
  targetSetVar_flags (TargetDocs.mk [] [] []) (gs "cflags") (gs "-O2 -DX")
    (by decide)

theorem filterMap_const_none {α β : Type} (l : List α) :
    l.filterMap (fun _ => (none : Option β)) = [] := by
  induction l <;> simp_all

theorem savedKeys_append (a b : List SaveLine) :
    savedKeys (a ++ b) = savedKeys a ++ savedKeys b :=
  List.filterMap_append a b _

theorem savedKeys_sequenceString (esc : GoStr → GoStr) (y : YCfg) (k : GoStr) :
    savedKeys (sequenceString esc y k)
      = if getValStringSlice y k = [] then [] else [k] := by
  unfold sequenceString savedKeys
  by_cases h : getValStringSlice y k = []
  · simp [h]
  · rw [if_neg h, if_neg h]
    simp [List.filterMap_cons, List.filterMap_map, Function.comp,
      filterMap_const_none]

/-- Claim C7: `Save` writes exactly the fixed whitelist of keys — the five
escaped scalars in fixed order, a blank line, then the five sequence
blocks in fixed order, each omitted entirely when its list is empty — so
any key of the on-disk manifest outside the whitelist is absent from the
saved file. -/
theorem save_whitelist_only (esc : GoStr → GoStr) (p : LocalPackage) (k : GoStr)
    (hk : k ∈ savedKeys (save esc p)) :
    savedKeys (save esc p)
      = [gs "pkg.name", gs "pkg.type", gs "pkg.description", gs "pkg.author",
         gs "pkg.homepage"]
        ++ ([gs "pkg.deps", gs "pkg.aflags", gs "pkg.cflags", gs "pkg.cxxflags",
             gs "pkg.lflags"].filter
              (fun key => !decide (getValStringSlice p.pkgY key = [])))
    ∧ k ∈ saveWhitelist := by
  have heq : savedKeys (save esc p)
      = [gs "pkg.name", gs "pkg.type", gs "pkg.description", gs "pkg.author",
         gs "pkg.homepage"]
        ++ ([gs "pkg.deps", gs "pkg.aflags", gs "pkg.cflags", gs "pkg.cxxflags",
             gs "pkg.lflags"].filter
              (fun key => !decide (getValStringSlice p.pkgY key = []))) := by
    unfold save
    simp only [savedKeys_append, savedKeys_sequenceString]
    by_cases h1 : getValStringSlice p.pkgY (gs "pkg.deps") = [] <;>
    by_cases h2 : getValStringSlice p.pkgY (gs "pkg.aflags") = [] <;>
    by_cases h3 : getValStringSlice p.pkgY (gs "pkg.cflags") = [] <;>
    by_cases h4 : getValStringSlice p.pkgY (gs "pkg.cxxflags") = [] <;>
    by_cases h5 : getValStringSlice p.pkgY (gs "pkg.lflags") = [] <;>
      simp [h1, h2, h3, h4, h5, savedKeys, List.filter]
  refine ⟨heq, ?_⟩
  rw [heq] at hk
  rcases List.mem_append.1 hk with h | h
  · simp only [List.mem_cons, List.not_mem_nil, or_false] at h
    rcases h with rfl | rfl | rfl | rfl | rfl <;> decide
  · have h' := List.mem_of_mem_filter h
    simp only [List.mem_cons, List.not_mem_nil, or_false] at h'
    rcases h' with rfl | rfl | rfl | rfl | rfl <;> decide

theorem save_whitelist_only_witness :
    savedKeys (save (fun s => s)
        (LocalPackage.mk (gs "t") (gs "r/t") .target 0 [] {} [] []))
      = [gs "pkg.name", gs "pkg.type", gs "pkg.description", gs "pkg.author",
         gs "pkg.homepage"]
        ++ ([gs "pkg.deps", gs "pkg.aflags", gs "pkg.cflags", gs "pkg.cxxflags",
             gs "pkg.lflags"].filter
              (fun key => !decide (getValStringSlice
                  (LocalPackage.mk (gs "t") (gs "r/t") .target 0 [] {} [] []).pkgY
                  key = [])))
    ∧ gs "pkg.name" ∈ saveWhitelist :=
  save_whitelist_only (fun s => s)
    (LocalPackage.mk (gs "t") (gs "r/t") .target 0 [] {} [] [])
    (gs "pkg.name") (by decide)

theorem foldl_space_buffer (l : List GoStr) : ∀ X : GoStr,
    l.foldl (fun b v => b ++ v ++ [' ']) X
      = X ++ (if l = [] then [] else joinSep [' '] l ++ [' ']) := by
  induction l with
  | nil => intro X; simp
  | cons x xs ih =>
    intro X
    rw [List.foldl_cons, ih]
    cases xs with
    | nil => simp [joinSep]
    | cons y ys => simp [joinSep, List.append_assoc]

/-- Claim C9 (counterexample): the displayed value of a flag variable is
the sorted tokens each followed by a space, so it carries a trailing
space and differs from the tokens joined with single spaces: with
`pkg.cflags = [b, a]` the show command displays `a b ` (trailing space),
not `a b`. -/
theorem show_flag_trailing_space :
    alookup (showDisplayedPairs [] []
        [(gs "pkg.cflags", YVal.list [gs "b", gs "a"])]) (gs "cflags")
      = some (gs "a b ")
    ∧ joinSep [' '] (sortStrings (getValStringSlice
        [(gs "pkg.cflags", YVal.list [gs "b", gs "a"])] (gs "pkg.cflags")))
      = gs "a b"
    ∧ gs "a b " ≠ gs "a b" := by
  refine ⟨by decide, by decide, by decide⟩

/-- Claim C9 (amended): show renders each flag variable by sorting the
`pkg.<name>` tokens lexicographically and emitting each token followed by
a single space (the tokens joined with single spaces plus one trailing
space when the list is non-empty), and every variable whose rendered
value is the empty string is suppressed from the display. -/
theorem show_render_and_suppression (pkgY : YCfg) (key : GoStr) (ts : GoMap)
    (sy py : YCfg) (k v : GoStr)
    (h : (k, v) ∈ showDisplayedPairs ts sy py) :
    pkgVarSliceString pkgY key
      = (if sortStrings (getValStringSlice pkgY key) = [] then []
         else joinSep [' '] (sortStrings (getValStringSlice pkgY key)) ++ [' '])
    ∧ v.length > 0
    ∧ alookup (showKvPairs ts sy py) k = some v := by
  constructor
  · unfold pkgVarSliceString
    dsimp only
    rw [foldl_space_buffer]
    simp
  · unfold showDisplayedPairs at h
    dsimp only at h
    rcases List.mem_filterMap.1 h with ⟨a, ha, hfa⟩
    cases heq : alookup (showKvPairs ts sy py) a with
    | none => rw [heq] at hfa; dsimp only at hfa; cases hfa
    | some v' =>
      rw [heq] at hfa
      dsimp only at hfa
      by_cases hlen : v'.length > 0
      · rw [if_pos hlen] at hfa
        simp only [Option.some.injEq, Prod.mk.injEq] at hfa
        obtain ⟨rfl, rfl⟩ := hfa
        exact ⟨hlen, heq⟩
      · rw [if_neg hlen] at hfa
        cases hfa

theorem show_render_and_suppression_witness :
    pkgVarSliceString [(gs "pkg.cflags", YVal.list [gs "a"])] (gs "pkg.cflags")
      = (if sortStrings (getValStringSlice [(gs "pkg.cflags", YVal.list [gs "a"])]
            (gs "pkg.cflags")) = [] then []
         else joinSep [' '] (sortStrings (getValStringSlice
            [(gs "pkg.cflags", YVal.list [gs "a"])] (gs "pkg.cflags"))) ++ [' '])
    ∧ (gs "a ").length > 0
    ∧ alookup (showKvPairs [] [] [(gs "pkg.cflags", YVal.list [gs "a"])])
        (gs "cflags") = some (gs "a ") :=
  show_render_and_suppression [(gs "pkg.cflags", YVal.list [gs "a"])]
    (gs "pkg.cflags") [] [] [(gs "pkg.cflags", YVal.list [gs "a"])]
    (gs "cflags") (gs "a ") (by decide)

theorem containsSub_middle (A x B : GoStr) :
    containsSub x (A ++ (x ++ B)) = true := by
  unfold containsSub
  rw [List.any_eq_true]
  refine ⟨x ++ B, ?_, ?_⟩
  · rw [List.mem_tails]
    exact List.suffix_append A (x ++ B)
  · exact List.isPrefixOf_iff_prefix.2 (List.prefix_append x B)

theorem insertScannedPackage_nodup (repoName : GoStr) (st : ScanState)
    (p : PkgInfo) (h : (akeys st.pkgList).Nodup) :
    (akeys (insertScannedPackage repoName st p).pkgList).Nodup := by
  unfold insertScannedPackage
  cases heq : alookup st.pkgList p.name with
  | some oldPkg => exact h
  | none =>
    have hnot : p.name ∉ akeys st.pkgList := (alookup_eq_none_iff _ _).1 heq
    dsimp only
    have hkeys : akeys (st.pkgList ++ [(p.name, p)])
        = akeys st.pkgList ++ [p.name] := by simp [akeys]
    rw [hkeys, List.nodup_append]
    refine ⟨h, List.nodup_singleton _, ?_⟩
    intro x hx hx'
    simp only [List.mem_singleton] at hx'
    subst hx'
    exact hnot hx

mutual

theorem readLocalPackageRecursive_inv (repoName : GoStr) (t : DirTree)
    (st : ScanState) (h : (akeys st.pkgList).Nodup) :
    (akeys ((readLocalPackageRecursive repoName t st).1.pkgList)).Nodup
    ∧ (readLocalPackageRecursive repoName t st).2 = none := by
  match t with
  | .mk pkgFile children =>
    obtain ⟨h1, h2⟩ := readForest_inv repoName children st h
    unfold readLocalPackageRecursive
    rcases hr : readForest repoName children st with ⟨st', err⟩
    rw [hr] at h1 h2
    dsimp only at h1 h2
    subst h2
    dsimp only
    cases pkgFile with
    | none => exact ⟨h1, rfl⟩
    | some r =>
      cases r with
      | error e => exact ⟨h1, rfl⟩
      | ok p => exact ⟨insertScannedPackage_nodup _ _ _ h1, rfl⟩

theorem readForest_inv (repoName : GoStr) (f : DirForest) (st : ScanState)
    (h : (akeys st.pkgList).Nodup) :
    (akeys ((readForest repoName f st).1.pkgList)).Nodup
    ∧ (readForest repoName f st).2 = none := by
  match f with
  | .nil => exact ⟨h, rfl⟩
  | .cons dirName tree rest =>
    unfold readForest
    by_cases hskip : localPackageSpecialName dirName = true
        ∨ (gs ".").isPrefixOf dirName = true
    · rw [if_pos hskip]
      exact readForest_inv repoName rest st h
    · rw [if_neg hskip]
      obtain ⟨g1, g2⟩ := readLocalPackageRecursive_inv repoName tree st h
      rcases hr : readLocalPackageRecursive repoName tree st with ⟨st', err⟩
      rw [hr] at g1 g2
      dsimp only at g1 g2
      subst g2
      dsimp only
      exact readForest_inv repoName rest st' g1

end

/-- Claim C5: after a recursive package scan no two packages in the store
share a name; when a directory loads to a package whose declared name
already exists, a "multiple packages with same pkg.name" warning naming
both paths is appended, the first package is kept, the second is not
inserted, and the scan as a whole still succeeds. -/
theorem readLocalPackages_unique_first_wins (repoName : GoStr) (root : DirTree)
    (st : ScanState) (p oldPkg : PkgInfo)
    (h : alookup st.pkgList p.name = some oldPkg) :
    (akeys ((readLocalPackages repoName root).1.pkgList)).Nodup
    ∧ (readLocalPackages repoName root).2 = none
    ∧ insertScannedPackage repoName st p
        = { st with warnings := st.warnings ++ [dupWarning repoName oldPkg p] }
    ∧ containsSub oldPkg.path (dupWarning repoName oldPkg p) = true
    ∧ containsSub p.path (dupWarning repoName oldPkg p) = true := by
  obtain ⟨h1, h2⟩ := readLocalPackageRecursive_inv repoName root
    { pkgList := [], warnings := [] } (by simp [akeys])
  refine ⟨h1, h2, ?_, ?_, ?_⟩
  · unfold insertScannedPackage
    rw [h]
  · have := containsSub_middle
      (gs "Multiple packages with same pkg.name=" ++ oldPkg.name ++
        gs " in repo " ++ repoName ++ gs "; path1=")
      oldPkg.path (gs " path2=" ++ p.path)
    simpa [dupWarning, List.append_assoc] using this
  · have := containsSub_middle
      (gs "Multiple packages with same pkg.name=" ++ oldPkg.name ++
        gs " in repo " ++ repoName ++ gs "; path1=" ++ oldPkg.path ++
        gs " path2=")
      p.path []
    simpa [dupWarning, List.append_assoc] using this

theorem readLocalPackages_unique_first_wins_witness :
    (akeys ((readLocalPackages (gs "r")
        (DirTree.mk none DirForest.nil)).1.pkgList)).Nodup
    ∧ (readLocalPackages (gs "r") (DirTree.mk none DirForest.nil)).2 = none
    ∧ insertScannedPackage (gs "r")
        (ScanState.mk [(gs "foo", PkgInfo.mk (gs "foo") (gs "a/foo"))] [])
        (PkgInfo.mk (gs "foo") (gs "b/foo"))
        = { ScanState.mk [(gs "foo", PkgInfo.mk (gs "foo") (gs "a/foo"))] [] with
            warnings := [] ++ [dupWarning (gs "r")
              (PkgInfo.mk (gs "foo") (gs "a/foo"))
              (PkgInfo.mk (gs "foo") (gs "b/foo"))] }
    ∧ containsSub (PkgInfo.mk (gs "foo") (gs "a/foo")).path
        (dupWarning (gs "r") (PkgInfo.mk (gs "foo") (gs "a/foo"))
          (PkgInfo.mk (gs "foo") (gs "b/foo"))) = true
    ∧ containsSub (PkgInfo.mk (gs "foo") (gs "b/foo")).path
        (dupWarning (gs "r") (PkgInfo.mk (gs "foo") (gs "a/foo"))
          (PkgInfo.mk (gs "foo") (gs "b/foo"))) = true :=
  readLocalPackages_unique_first_wins (gs "r") (DirTree.mk none DirForest.nil)
    (ScanState.mk [(gs "foo", PkgInfo.mk (gs "foo") (gs "a/foo"))] [])
    (PkgInfo.mk (gs "foo") (gs "b/foo"))
    (PkgInfo.mk (gs "foo") (gs "a/foo")) rfl

end Newt
